import Mathlib

/-!
Verification development for the ClawWorld viewer client (`src/index.ts`).

The client code is shallowly embedded: each JS function relevant to the
claims is translated into an executable Lean definition.  JS numbers that
the client only ever uses as integers (cell coordinates, item ids) become
`Int`; numeric attribute values produced by `parseFloat` become exact
rationals (`Rat`) — double rounding/overflow of decimal literals is
abstracted to exact rational arithmetic, but the `Infinity` literal (which
`isFinite` rejects) is modelled explicitly.  JS `Map` objects keyed by
strings become association lists with JS `Map.set` semantics (in-place
update of an existing key, append otherwise); the `Set` of requested chunk
keys `"cx,cy"` becomes a list of integer pairs (the key string encodes the
pair injectively, so nothing is lost).  JS `Array.prototype.sort`, which is
required to be stable, is modelled by `List.insertionSort` (stable, and on
a total preorder it produces the same list as any stable sort).
-/

set_option maxRecDepth 8000

namespace ClawViewer

/-! ### Attribute codec (`parseTags`, `getTag`, `hasTag`) -/

/-- Result of JS `parseFloat` when it does not return `NaN`: a finite double
(modelled as an exact rational) or `±Infinity` (from the `Infinity`
literal; the sign is irrelevant to the client, which only tests
`isFinite`). -/
inductive ParsedNum where
  | val (q : Rat)
  | inf
  deriving DecidableEq, Repr

/-- JS whitespace skipped by `parseFloat` (ASCII portion). -/
def isJsWs (c : Char) : Bool :=
  c = ' ' || c = '\t' || c = '\n' || c = '\r' || c = '\x0b' || c = '\x0c'

/-- Value of a (decimal) digit string. -/
def digitsVal (ds : List Char) : Nat :=
  ds.foldl (fun n c => 10 * n + (c.toNat - 48)) 0

/-- Exponent contributed by a trailing `e`/`E` exponent part, if the
characters at the front form a valid one; `parseFloat` takes the longest
valid literal prefix, so an invalid exponent part contributes 0. -/
def expPart (cs : List Char) : Int :=
  match cs with
  | c :: rest =>
    if c = 'e' || c = 'E' then
      match rest with
      | '+' :: r =>
        let ds := r.takeWhile Char.isDigit
        if ds.isEmpty then 0 else (digitsVal ds : Int)
      | '-' :: r =>
        let ds := r.takeWhile Char.isDigit
        if ds.isEmpty then 0 else -(digitsVal ds : Int)
      | r =>
        let ds := r.takeWhile Char.isDigit
        if ds.isEmpty then 0 else (digitsVal ds : Int)
    else 0
  | [] => 0

/-- JS `parseFloat` on a character list: skip leading whitespace, optional
sign, then the longest prefix that is a decimal literal or `Infinity`;
`none` models `NaN` (no valid prefix at all).  The literal's value
`sign * digits(ds1.ds2) * 10^e / 10^(length ds2)` is assembled as a single
`mkRat` so that the definition evaluates by kernel reduction. -/
def jsParseFloatCh (cs : List Char) : Option ParsedNum :=
  let t := cs.dropWhile isJsWs
  let sgn : Int := match t with | '-' :: _ => -1 | _ => 1
  let u := match t with | '+' :: r => r | '-' :: r => r | r => r
  if u.take 8 = ('I' :: 'n' :: 'f' :: 'i' :: 'n' :: 'i' :: 't' :: 'y' :: []) then
    some ParsedNum.inf
  else
    let ds1 := u.takeWhile Char.isDigit
    let v1 := u.dropWhile Char.isDigit
    let ds2 := match v1 with | '.' :: r => r.takeWhile Char.isDigit | _ => []
    let v2 := match v1 with | '.' :: r => r.dropWhile Char.isDigit | _ => v1
    if ds1.isEmpty && ds2.isEmpty then none
    else
      let e := expPart v2
      some (ParsedNum.val (mkRat
        (sgn * (digitsVal (ds1 ++ ds2) : Int) * (10 : Int) ^ e.toNat)
        ((10 : Nat) ^ ds2.length * (10 : Nat) ^ (-e).toNat)))

/-- JS `parseFloat` on a string. -/
def jsParseFloat (s : String) : Option ParsedNum := jsParseFloatCh s.toList

/-- A value stored in the decoded tag map: a finite number or a boolean
flag (`true`). -/
inductive TagValue where
  | num (q : Rat)
  | flag
  deriving DecidableEq, Repr

/-- The decoded attribute map.  JS `Map` iteration order is insertion
order, so an association list is a faithful model. -/
abbrev TagMap := List (String × TagValue)

/-- JS `Map.set`: update in place if the key exists (keeping its
position), else append at the end. -/
def mapSet {α : Type} (m : List (String × α)) (k : String) (v : α) :
    List (String × α) :=
  if m.any (fun p => p.1 == k) then
    m.map (fun p => if p.1 == k then (k, v) else p)
  else m ++ [(k, v)]

/-- `tags.split(',')` for the single-character separator `,`. -/
def splitComma : List Char → List (List Char)
  | [] => [[]]
  | c :: cs =>
    if c = ',' then [] :: splitComma cs
    else
      match splitComma cs with
      | t :: ts => (c :: t) :: ts
      | [] => [[c]]

/-- `token.indexOf(':')` together with the two `substring` calls: splits a
token at its first `:`; `none` when there is no `:` (`indexOf` = −1). -/
def splitAtFirstColon : List Char → Option (List Char × List Char)
  | [] => none
  | c :: cs =>
    if c = ':' then some ([], cs)
    else
      match splitAtFirstColon cs with
      | some (k, v) => some (c :: k, v)
      | none => none

/-- Body of the `for (const token of tags.split(','))` loop in
`parseTags`: skip empty tokens; a token without `:` becomes a flag; a
token whose value part parses as a finite number maps its key to that
number; otherwise the entire token becomes a flag. -/
def tagStep (m : TagMap) (token : List Char) : TagMap :=
  if token.isEmpty then m
  else
    match splitAtFirstColon token with
    | none => mapSet m (String.mk token) TagValue.flag
    | some (k, v) =>
      match jsParseFloatCh v with
      | some (ParsedNum.val q) => mapSet m (String.mk k) (TagValue.num q)
      | _ => mapSet m (String.mk token) TagValue.flag

/-- `parseTags` from `src/index.ts`: the `if (!tags)` guard makes an empty
input yield the empty map; otherwise fold the token step over the
comma-split input. -/
def parseTags (tags : String) : TagMap :=
  if tags.toList.isEmpty then []
  else (splitComma tags.toList).foldl tagStep []

/-- `getTag`: numeric value of a key, 0 when absent or not a number. -/
def getTag (tags key : String) : Rat :=
  match (parseTags tags).find? (fun p => p.1 == key) with
  | some (_, TagValue.num q) => q
  | _ => 0

/-- `hasTag`: whether the decoded map has the given key. -/
def hasTag (tags t : String) : Bool :=
  (parseTags tags).any (fun p => p.1 == t)

example : parseTags ("hp:42,lit") = [("hp", TagValue.num 42), ("lit", TagValue.flag)] := by decide
example : parseTags ("") = [] := by decide
example : parseTags ("x:abc") = [("x:abc", TagValue.flag)] := by decide
example : parseTags (":5") = [("", TagValue.num 5)] := by decide
example : parseTags ("a,,b") = [("a", TagValue.flag), ("b", TagValue.flag)] := by decide
example : getTag ("hp:150") ("hp") = 150 := by decide
example : jsParseFloat ("Infinity") = some ParsedNum.inf := by decide
example : jsParseFloat ("x:abc") = none := by decide

/-! ### Structural lemmas about the codec -/

theorem splitComma_ne_nil (cs : List Char) : splitComma cs ≠ [] := by
  induction cs with
  | nil => simp [splitComma]
  | cons c cs ih =>
    rw [splitComma]
    split
    · simp
    · rcases h : splitComma cs with _ | ⟨t, ts⟩
      · exact absurd h ih
      · simp [h]

theorem splitComma_append (xs ys : List Char) :
    splitComma (xs ++ ',' :: ys) = splitComma xs ++ splitComma ys := by
  induction xs with
  | nil => simp [splitComma]
  | cons c cs ih =>
    by_cases hc : c = ','
    · subst hc
      rw [List.cons_append, splitComma, if_pos rfl, ih, splitComma, if_pos rfl,
        List.cons_append]
    · rw [List.cons_append, splitComma, if_neg hc, ih, splitComma, if_neg hc]
      rcases h : splitComma cs with _ | ⟨t, ts⟩
      · exact absurd h (splitComma_ne_nil cs)
      · simp

theorem splitComma_no_comma {cs : List Char} (h : ',' ∉ cs) :
    splitComma cs = [cs] := by
  induction cs with
  | nil => rfl
  | cons c cs ih =>
    have hc : ¬ (c = ',') := fun hc => h (by rw [hc]; exact List.mem_cons_self _ _)
    have ht : ',' ∉ cs := fun hm => h (List.mem_cons_of_mem c hm)
    rw [splitComma, if_neg hc, ih ht]

theorem splitAtFirstColon_eq_none {cs : List Char} (h : ':' ∉ cs) :
    splitAtFirstColon cs = none := by
  induction cs with
  | nil => rfl
  | cons c cs ih =>
    have hc : ¬ (c = ':') := fun hc => h (by rw [← hc]; exact List.mem_cons_self _ _)
    have ht : ':' ∉ cs := fun hm => h (List.mem_cons_of_mem c hm)
    rw [splitAtFirstColon, if_neg hc, ih ht]

theorem splitAtFirstColon_append {k : List Char} (v : List Char) (h : ':' ∉ k) :
    splitAtFirstColon (k ++ ':' :: v) = some (k, v) := by
  induction k with
  | nil => simp [splitAtFirstColon]
  | cons c cs ih =>
    have hc : ¬ (c = ':') := fun hc => h (by rw [← hc]; exact List.mem_cons_self _ _)
    have ht : ':' ∉ cs := fun hm => h (List.mem_cons_of_mem c hm)
    rw [List.cons_append, splitAtFirstColon, if_neg hc, ih ht]

theorem stringMk_toList (s : String) : String.mk s.toList = s := rfl

theorem parseTags_eq_foldl (s : String) :
    parseTags s = (splitComma s.toList).foldl tagStep [] := by
  rw [parseTags]
  split
  · next h =>
    have h0 : s.toList = [] := by
      rwa [List.isEmpty_iff] at h
    rw [h0]
    rfl
  · rfl

theorem toList_append_comma (a b : String) :
    (a ++ "," ++ b).toList = a.toList ++ ',' :: b.toList := by
  simp [String.toList, String.data_append]

theorem parseTags_append_comma (a b : String) :
    parseTags (a ++ "," ++ b) = (splitComma b.toList).foldl tagStep (parseTags a) := by
  rw [parseTags_eq_foldl, parseTags_eq_foldl, toList_append_comma,
    splitComma_append, List.foldl_append]

theorem tagStep_no_colon (m : TagMap) {t : List Char} (hne : t ≠ []) (h : ':' ∉ t) :
    tagStep m t = mapSet m (String.mk t) TagValue.flag := by
  have hne2 : ¬ (t.isEmpty = true) := by simp [hne]
  rw [tagStep, if_neg hne2, splitAtFirstColon_eq_none h]

theorem tagStep_colon (m : TagMap) {k : List Char} (v : List Char) (h : ':' ∉ k) :
    tagStep m (k ++ ':' :: v)
      = match jsParseFloatCh v with
        | some (ParsedNum.val q) => mapSet m (String.mk k) (TagValue.num q)
        | _ => mapSet m (String.mk (k ++ ':' :: v)) TagValue.flag := by
  have hne : ¬ ((k ++ ':' :: v).isEmpty = true) := by simp
  rw [tagStep, if_neg hne, splitAtFirstColon_append v h]

theorem toList_colon_token (k v : String) :
    (k ++ ":" ++ v).toList = k.toList ++ ':' :: v.toList := by
  simp [String.toList, String.data_append]

/-- Decoding a single `key:value` token (comma-free, first colon after
`key`): the value part decides between the numeric entry and the
whole-token flag fallback. -/
theorem parseTags_single_colon_token (k v : String) (hcol : ':' ∉ k.toList)
    (hck : ',' ∉ k.toList) (hcv : ',' ∉ v.toList) :
    parseTags (k ++ ":" ++ v)
      = match jsParseFloatCh v.toList with
        | some (ParsedNum.val q) => [(k, TagValue.num q)]
        | _ => [(k ++ ":" ++ v, TagValue.flag)] := by
  have hd := toList_colon_token k v
  have hnc : ',' ∉ k.toList ++ ':' :: v.toList := by
    intro hm
    rcases List.mem_append.mp hm with h | h
    · exact hck h
    · rcases List.mem_cons.mp h with h | h
      · exact absurd h (by decide)
      · exact hcv h
  rw [parseTags_eq_foldl, hd, splitComma_no_comma hnc, List.foldl_cons, List.foldl_nil,
    tagStep_colon [] v.toList hcol]
  rcases hr : jsParseFloatCh v.toList with _ | pn
  · simp only [← hd, stringMk_toList]
    rfl
  · rcases pn with q | _
    · simp only [← hd, stringMk_toList]
      rfl
    · simp only [← hd, stringMk_toList]
      rfl

theorem parseTags_trailing_comma (s : String) : parseTags (s ++ ",") = parseTags s := by
  have h : s ++ "," = s ++ "," ++ "" := (String.append_empty _).symm
  rw [h, parseTags_append_comma]
  rfl

theorem parseTags_leading_comma (s : String) : parseTags ("," ++ s) = parseTags s := by
  have h : "," ++ s = "" ++ "," ++ s := by rw [String.empty_append]
  rw [h, parseTags_append_comma]
  exact (parseTags_eq_foldl s).symm

theorem parseTags_double_comma (a b : String) :
    parseTags (a ++ ",," ++ b) = parseTags (a ++ "," ++ b) := by
  have h2 : a ++ ",," ++ b = (a ++ ",") ++ "," ++ b := by
    apply String.ext
    simp [String.data_append]
  rw [h2, parseTags_append_comma, parseTags_trailing_comma, ← parseTags_append_comma]

/-! ### C1, C2, C10 -/

/-- C1: `parseTags` splits its input on `,` (decoding a comma-joined input
continues the fold over the second part's tokens starting from the first
part's map); the empty string decodes to the empty map; a comma-free token
without `:` is stored as a boolean flag keyed by the whole token; a token
`key:value` (split at the first colon) whose value part parses as a finite
number maps `key` to that number.  Concretely, `"hp:42,lit"` decodes to
`{hp ↦ 42, lit ↦ true}` and `""` to `{}`. -/
theorem c1_parseTags_decode :
    parseTags ("") = [] ∧
    parseTags ("hp:42,lit") = [("hp", TagValue.num 42), ("lit", TagValue.flag)] ∧
    (∀ a b : String,
      parseTags (a ++ "," ++ b) = (splitComma b.toList).foldl tagStep (parseTags a)) ∧
    (∀ t : String, t.toList ≠ [] → ',' ∉ t.toList → ':' ∉ t.toList →
      parseTags t = [(t, TagValue.flag)]) ∧
    (∀ (k v : String) (q : Rat), ':' ∉ k.toList → ',' ∉ k.toList → ',' ∉ v.toList →
      jsParseFloat v = some (ParsedNum.val q) →
      parseTags (k ++ ":" ++ v) = [(k, TagValue.num q)]) := by
  refine ⟨by decide, by decide, parseTags_append_comma, ?_, ?_⟩
  · intro t hne hnc hncol
    rw [parseTags_eq_foldl, splitComma_no_comma hnc, List.foldl_cons, List.foldl_nil,
      tagStep_no_colon [] hne hncol, stringMk_toList]
    rfl
  · intro k v q hcol hck hcv hq
    rw [parseTags_single_colon_token k v hcol hck hcv,
      show jsParseFloatCh v.toList = some (ParsedNum.val q) from hq]

/-- C1 witness: the numeric-token clause of `c1_parseTags_decode`
instantiated at the token `hp:42`. -/
theorem c1_parseTags_decode_witness :
    parseTags ("hp" ++ ":" ++ "42") = [("hp", TagValue.num 42)] :=
  c1_parseTags_decode.2.2.2.2 "hp" "42" 42 (by decide) (by decide) (by decide) (by decide)

/-- C2: a token containing `:` whose value part does not parse as a finite
number is stored as a boolean flag keyed by the ENTIRE original token (and
decoding never fails on it); `"x:abc"` decodes to a single flag keyed by
the literal string `"x:abc"`, not by `"x"`. -/
theorem c2_malformed_token_fallback :
    (∀ (k v : String), ':' ∉ k.toList → ',' ∉ k.toList → ',' ∉ v.toList →
      (∀ q : Rat, jsParseFloat v ≠ some (ParsedNum.val q)) →
      parseTags (k ++ ":" ++ v) = [(k ++ ":" ++ v, TagValue.flag)]) ∧
    parseTags ("x:abc") = [("x:abc", TagValue.flag)] ∧
    (parseTags ("x:abc")).find? (fun p => p.1 == "x") = none := by
  refine ⟨?_, by decide, by decide⟩
  intro k v hcol hck hcv hq
  rw [parseTags_single_colon_token k v hcol hck hcv]
  rcases hr : jsParseFloatCh v.toList with _ | pn
  · rfl
  · rcases pn with q | _
    · exact absurd hr (hq q)
    · rfl

/-- C2 witness: the fallback clause of `c2_malformed_token_fallback`
instantiated at the token `x:abc`. -/
theorem c2_malformed_token_fallback_witness :
    parseTags ("x" ++ ":" ++ "abc") = [("x" ++ ":" ++ "abc", TagValue.flag)] :=
  c2_malformed_token_fallback.1 "x" "abc" (by decide) (by decide) (by decide)
    (fun q h => by
      rw [show jsParseFloat ("abc") = none from by decide] at h
      exact Option.noConfusion h)

/-- C10 counterexample: the claim "an empty-string key is never present in
the decoded map" is false — the token `:5` has the empty string before its
first colon and a numeric value part, so `decode(":5")` stores the key
`""`. -/
theorem c10_empty_key_counterexample :
    parseTags (":5") = [("", TagValue.num 5)] ∧
    (parseTags (":5")).any (fun p => p.1 == "") = true := by
  constructor
  · decide
  · decide

/-- C10 (amended): `parseTags` silently skips empty tokens, so
consecutive, leading, or trailing commas produce no map entry
(`"a,,b"` and `"a,b,"` both decode to exactly `{a: true, b: true}`);
however an empty-string key CAN be present: a token of the form `:v`
whose value part parses as a finite number stores the empty key
(`":5"` decodes to `{"" ↦ 5}`). -/
theorem c10_empty_tokens_skipped :
    parseTags ("a,,b") = [("a", TagValue.flag), ("b", TagValue.flag)] ∧
    parseTags ("a,b,") = [("a", TagValue.flag), ("b", TagValue.flag)] ∧
    (∀ s : String, parseTags (s ++ ",") = parseTags s) ∧
    (∀ s : String, parseTags ("," ++ s) = parseTags s) ∧
    (∀ a b : String, parseTags (a ++ ",," ++ b) = parseTags (a ++ "," ++ b)) ∧
    parseTags (":5") = [("", TagValue.num 5)] :=
  ⟨by decide, by decide, parseTags_trailing_comma, parseTags_leading_comma,
    parseTags_double_comma, by decide⟩

/-! ### Data model -/

/-- An agent row as the renderer and controller see it. -/
structure Agent where
  name : String
  x : Int
  y : Int
  tags : String
  deriving DecidableEq, Repr

/-- An item row: identifier (bigint primary key), cell, optional carrier
identity, attribute string. -/
structure Item where
  id : Int
  x : Int
  y : Int
  carrier : Option Nat
  tags : String
  deriving DecidableEq, Repr

/-! ### Chunk streamer (`ensureChunksLoaded`) -/

/-- `CHUNK_SIZE` from the source. -/
def CHUNK_SIZE : Int := 16

/-- The `const radius = 4` local of `ensureChunksLoaded` ("Load 9x9
chunks"). -/
def CHUNK_RADIUS : Int := 4

/-- `n` consecutive integers starting at `lo`. -/
def intRangeAux (lo : Int) : Nat → List Int
  | 0 => []
  | n + 1 => lo :: intRangeAux (lo + 1) n

/-- The integers `lo, lo+1, …, hi` in order (the iteration sequence of a
`for (let i = lo; i <= hi; i++)` loop). -/
def intRange (lo hi : Int) : List Int := intRangeAux lo (hi + 1 - lo).toNat

/-- The square window of chunk coordinates visited by the nested
`for (dy) for (dx)` loops, in visit order. -/
def chunkWindow (cx cy : Int) : List (Int × Int) :=
  (intRange (-CHUNK_RADIUS) CHUNK_RADIUS).flatMap (fun dy =>
    (intRange (-CHUNK_RADIUS) CHUNK_RADIUS).map (fun dx => (cx + dx, cy + dy)))

/-- One loop iteration: state is (requested set, emitted intents so far);
an unrequested chunk is added to the set and an intent for it is emitted.
The JS `Set` keyed by the string `"cx,cy"` is modelled as a list of the
coordinate pairs themselves (the key encodes the pair injectively). -/
def chunkStep (st : List (Int × Int) × List (Int × Int)) (c : Int × Int) :
    List (Int × Int) × List (Int × Int) :=
  if c ∈ st.1 then st else (st.1 ++ [c], st.2 ++ [c])

/-- `ensureChunksLoaded(centerX, centerY)`: chunk coordinates come from
`Math.floor(center / CHUNK_SIZE)` (floor division); returns the new
requested set together with the `generateChunk` intents emitted by this
pass, in emission order. -/
def ensureChunksLoaded (loaded : List (Int × Int)) (centerX centerY : Int) :
    List (Int × Int) × List (Int × Int) :=
  (chunkWindow (Int.fdiv centerX CHUNK_SIZE) (Int.fdiv centerY CHUNK_SIZE)).foldl
    chunkStep (loaded, [])

/-- One chunk-load pass inside a session: thread the requested set and
accumulate the emitted intents. -/
def chunkPassStep (st : List (Int × Int) × List (Int × Int)) (p : Int × Int) :
    List (Int × Int) × List (Int × Int) :=
  ((ensureChunksLoaded st.1 p.1 p.2).1, st.2 ++ (ensureChunksLoaded st.1 p.1 p.2).2)

/-- A whole session of chunk-load passes (one per render frame): state is
(requested set, all intents emitted so far). -/
def runChunkPasses (st : List (Int × Int) × List (Int × Int))
    (ps : List (Int × Int)) : List (Int × Int) × List (Int × Int) :=
  ps.foldl chunkPassStep st

theorem mem_intRangeAux {x lo : Int} {n : Nat} :
    x ∈ intRangeAux lo n ↔ lo ≤ x ∧ x < lo + n := by
  induction n generalizing lo with
  | zero =>
    simp only [intRangeAux, List.not_mem_nil, false_iff]
    omega
  | succ n ih =>
    simp only [intRangeAux, List.mem_cons, ih]
    omega

theorem mem_intRange {x lo hi : Int} : x ∈ intRange lo hi ↔ lo ≤ x ∧ x ≤ hi := by
  rw [intRange, mem_intRangeAux]
  omega

theorem mem_chunkWindow {cx cy : Int} {c : Int × Int} :
    c ∈ chunkWindow cx cy ↔
      cx - 4 ≤ c.1 ∧ c.1 ≤ cx + 4 ∧ cy - 4 ≤ c.2 ∧ c.2 ≤ cy + 4 := by
  obtain ⟨c1, c2⟩ := c
  simp only [chunkWindow, List.mem_flatMap, List.mem_map, mem_intRange, CHUNK_RADIUS,
    Prod.mk.injEq]
  constructor
  · rintro ⟨dy, ⟨h1, h2⟩, dx, ⟨h3, h4⟩, he1, he2⟩
    refine ⟨by omega, by omega, by omega, by omega⟩
  · rintro ⟨h1, h2, h3, h4⟩
    exact ⟨c2 - cy, ⟨by omega, by omega⟩, c1 - cx, ⟨by omega, by omega⟩, by omega, by omega⟩

theorem chunkFold_loaded_eq_append (ws : List (Int × Int)) (L0 : List (Int × Int)) :
    ∀ st : List (Int × Int) × List (Int × Int), st.1 = L0 ++ st.2 →
      (ws.foldl chunkStep st).1 = L0 ++ (ws.foldl chunkStep st).2 := by
  induction ws with
  | nil => intro st h; exact h
  | cons c ws ih =>
    intro st h
    rw [List.foldl_cons]
    apply ih
    rw [chunkStep]
    split
    · exact h
    · simp [h]

theorem chunkFold_fresh (ws : List (Int × Int)) :
    ∀ (st : List (Int × Int) × List (Int × Int)) (c : Int × Int),
      c ∈ (ws.foldl chunkStep st).2 → c ∈ st.2 ∨ c ∉ st.1 := by
  induction ws with
  | nil => intro st c h; exact Or.inl h
  | cons d ws ih =>
    intro st c h
    rw [List.foldl_cons] at h
    rw [chunkStep] at h
    split at h
    · exact ih st c h
    · next hd =>
      rcases ih _ c h with h2 | h2
      · rcases List.mem_append.mp h2 with h3 | h3
        · exact Or.inl h3
        · rw [List.mem_singleton] at h3
          subst h3
          exact Or.inr hd
      · simp only [List.mem_append, List.mem_singleton, not_or] at h2
        exact Or.inr h2.1

theorem chunkFold_nodup (ws : List (Int × Int)) :
    ∀ st : List (Int × Int) × List (Int × Int),
      st.2.Nodup → (∀ c ∈ st.2, c ∈ st.1) →
      (ws.foldl chunkStep st).2.Nodup ∧
        (∀ c ∈ (ws.foldl chunkStep st).2, c ∈ (ws.foldl chunkStep st).1) := by
  induction ws with
  | nil => intro st h1 h2; exact ⟨h1, h2⟩
  | cons d ws ih =>
    intro st h1 h2
    rw [List.foldl_cons, chunkStep]
    split
    · exact ih st h1 h2
    · next hd =>
      apply ih
      · simp only [List.nodup_append, List.nodup_singleton, true_and]
        refine ⟨h1, ?_⟩
        intro c hc
        simp only [List.mem_singleton]
        intro hcd
        subst hcd
        exact hd (h2 c hc)
      · intro c hc
        simp only [List.mem_append, List.mem_singleton] at hc ⊢
        rcases hc with hc | hc
        · exact Or.inl (h2 c hc)
        · exact Or.inr hc

theorem chunkFold_no_new (ws : List (Int × Int)) :
    ∀ st : List (Int × Int) × List (Int × Int),
      (∀ c ∈ ws, c ∈ st.1) → (ws.foldl chunkStep st).2 = st.2 := by
  induction ws with
  | nil => intro st _; rfl
  | cons d ws ih =>
    intro st h
    rw [List.foldl_cons, chunkStep, if_pos (h d (List.mem_cons_self _ _))]
    exact ih st (fun c hc => h c (List.mem_cons_of_mem _ hc))

/-- A pass only grows the requested set: afterwards it is the old set
followed by exactly the chunks it emitted intents for. -/
theorem ensureChunksLoaded_loaded_eq (loaded : List (Int × Int)) (x y : Int) :
    (ensureChunksLoaded loaded x y).1 = loaded ++ (ensureChunksLoaded loaded x y).2 :=
  chunkFold_loaded_eq_append _ loaded (loaded, []) (by simp)

/-- A pass never emits an intent for an already-requested chunk. -/
theorem ensureChunksLoaded_fresh (loaded : List (Int × Int)) (x y : Int)
    (c : Int × Int) (hc : c ∈ (ensureChunksLoaded loaded x y).2) : c ∉ loaded := by
  rcases chunkFold_fresh _ (loaded, []) c hc with h | h
  · exact absurd h (List.not_mem_nil c)
  · exact h

/-- The intents of one pass are pairwise distinct. -/
theorem ensureChunksLoaded_nodup (loaded : List (Int × Int)) (x y : Int) :
    (ensureChunksLoaded loaded x y).2.Nodup :=
  (chunkFold_nodup _ (loaded, []) List.nodup_nil (by simp)).1

theorem runChunkPasses_cons (st : List (Int × Int) × List (Int × Int))
    (p : Int × Int) (ps : List (Int × Int)) :
    runChunkPasses st (p :: ps) = runChunkPasses (chunkPassStep st p) ps := by
  rw [runChunkPasses, runChunkPasses, List.foldl_cons]

theorem runChunkPasses_inv (ps : List (Int × Int)) :
    ∀ st : List (Int × Int) × List (Int × Int), st.1 = st.2 → st.2.Nodup →
      (runChunkPasses st ps).1 = (runChunkPasses st ps).2 ∧
        (runChunkPasses st ps).2.Nodup := by
  induction ps with
  | nil => intro st h1 h2; exact ⟨h1, h2⟩
  | cons p ps ih =>
    intro st h1 h2
    have hst1 : (chunkPassStep st p).1 = (chunkPassStep st p).2 := by
      simp only [chunkPassStep]
      rw [ensureChunksLoaded_loaded_eq, h1]
    have hnd : (chunkPassStep st p).2.Nodup := by
      simp only [chunkPassStep]
      rw [List.nodup_append]
      exact ⟨h2, ensureChunksLoaded_nodup _ _ _,
        fun c hc hc2 => ensureChunksLoaded_fresh _ _ _ c hc2 (h1 ▸ hc)⟩
    rw [runChunkPasses_cons]
    exact ih _ hst1 hnd

/-- C4 counterexample: the code's chunk radius is the constant 4, not 2 —
one pass from an empty requested set for focus cell (0,0) emits 81
`generateChunk` intents, not 25. -/
theorem c4_radius_counterexample :
    (ensureChunksLoaded [] 0 0).2.length = 81 ∧
    ¬ ((ensureChunksLoaded [] 0 0).2.length = 25) := by
  constructor
  · decide
  · decide

/-- C4 (amended): with the code's fixed radius 4, one chunk-load pass from
an empty requested set for focus cell (0,0) emits exactly 81 distinct
`generateChunk` intents, one per chunk in the square window `[-4,4]²`
around the focus chunk; a subsequent pass for any focus cell in the same
chunk emits zero additional intents; every pass only appends to the
requested set (it never shrinks) and never emits an intent for an
already-requested chunk, so across every sequence of passes in a session
no chunk coordinate is requested twice. -/
theorem c4_chunk_requests :
    (ensureChunksLoaded [] 0 0).2.length = 81 ∧
    (ensureChunksLoaded [] 0 0).2.Nodup ∧
    (∀ c : Int × Int, c ∈ (ensureChunksLoaded [] 0 0).2 ↔
      -4 ≤ c.1 ∧ c.1 ≤ 4 ∧ -4 ≤ c.2 ∧ c.2 ≤ 4) ∧
    (∀ x y : Int, Int.fdiv x CHUNK_SIZE = 0 → Int.fdiv y CHUNK_SIZE = 0 →
      (ensureChunksLoaded (ensureChunksLoaded [] 0 0).1 x y).2 = []) ∧
    (∀ (loaded : List (Int × Int)) (x y : Int),
      (ensureChunksLoaded loaded x y).1 = loaded ++ (ensureChunksLoaded loaded x y).2) ∧
    (∀ (loaded : List (Int × Int)) (x y : Int) (c : Int × Int),
      c ∈ (ensureChunksLoaded loaded x y).2 → c ∉ loaded) ∧
    (∀ ps : List (Int × Int), (runChunkPasses ([], []) ps).2.Nodup) := by
  refine ⟨by decide, by decide, ?_, ?_, ensureChunksLoaded_loaded_eq,
    ensureChunksLoaded_fresh, ?_⟩
  · intro c
    rw [show (ensureChunksLoaded [] 0 0).2 = chunkWindow 0 0 from by decide,
      mem_chunkWindow]
    omega
  · intro x y hx hy
    show ((chunkWindow (Int.fdiv x CHUNK_SIZE) (Int.fdiv y CHUNK_SIZE)).foldl
      chunkStep ((ensureChunksLoaded [] 0 0).1, [])).2 = []
    rw [hx, hy]
    exact chunkFold_no_new _ _ (by decide)
  · intro ps
    exact (runChunkPasses_inv ps ([], []) rfl List.nodup_nil).2

/-- C4 witness: the same-chunk-second-pass clause of `c4_chunk_requests`
instantiated at focus cell (3,5), which lies in chunk (0,0). -/
theorem c4_chunk_requests_witness :
    (ensureChunksLoaded (ensureChunksLoaded [] 0 0).1 3 5).2 = [] :=
  c4_chunk_requests.2.2.2.1 3 5 (by decide) (by decide)

/-! ### Fog of war (render, lines 263–276) -/

/-- `VISIBILITY_RADIUS` from the fog-of-war pass. -/
def VISIBILITY_RADIUS : Int := 3

/-- The per-cell condition of the fog pass:
`Math.abs(tx - agent.x) > R || Math.abs(ty - agent.y) > R`. -/
def fogDarkens (a : Agent) (tx ty : Int) : Bool :=
  decide (VISIBILITY_RADIUS < |tx - a.x|) || decide (VISIBILITY_RADIUS < |ty - a.y|)

/-- Chebyshev distance between two cells. -/
def chebyshev (ax ay tx ty : Int) : Int := max |tx - ax| |ty - ay|

/-- The fog-of-war pass of `render`: when a controlled agent exists and the
player is playing, darken every cell of the visible bounds whose offset
from the agent exceeds the visibility radius on either axis (the nested
`for (ty) for (tx)` loops); otherwise darken nothing. -/
def darkenedCells (agent : Option Agent) (playing : Bool)
    (minTX maxTX minTY maxTY : Int) : List (Int × Int) :=
  match agent, playing with
  | some a, true =>
    (intRange minTY maxTY).flatMap (fun ty =>
      ((intRange minTX maxTX).filter (fun tx => fogDarkens a tx ty)).map
        (fun tx => (tx, ty)))
  | _, _ => []

theorem fogDarkens_iff (a : Agent) (tx ty : Int) :
    fogDarkens a tx ty = true ↔ VISIBILITY_RADIUS < chebyshev a.x a.y tx ty := by
  rw [fogDarkens, chebyshev, Bool.or_eq_true, decide_eq_true_iff, decide_eq_true_iff,
    lt_max_iff]

/-- C8: with a controlled, playing agent the fog pass darkens exactly the
cells of the visible bounds whose Chebyshev distance from the agent's cell
exceeds the visibility radius 3; with the agent at (0,0), cell (3,3) is
not darkened and cell (4,0) is darkened; with no controlled agent nothing
is darkened. -/
theorem c8_fog_of_war :
    (∀ (a : Agent) (pl : Bool) (minTX maxTX minTY maxTY : Int) (c : Int × Int),
      c ∈ darkenedCells (some a) pl minTX maxTX minTY maxTY ↔
        pl = true ∧ minTX ≤ c.1 ∧ c.1 ≤ maxTX ∧ minTY ≤ c.2 ∧ c.2 ≤ maxTY ∧
          VISIBILITY_RADIUS < chebyshev a.x a.y c.1 c.2) ∧
    (((3 : Int), (3 : Int)) ∉
      darkenedCells (some { name := "me", x := 0, y := 0, tags := "" }) true
        (-5) 5 (-5) 5) ∧
    (((4 : Int), (0 : Int)) ∈
      darkenedCells (some { name := "me", x := 0, y := 0, tags := "" }) true
        (-5) 5 (-5) 5) ∧
    (∀ (pl : Bool) (minTX maxTX minTY maxTY : Int),
      darkenedCells none pl minTX maxTX minTY maxTY = []) := by
  refine ⟨?_, by decide, by decide, ?_⟩
  · intro a pl minTX maxTX minTY maxTY c
    obtain ⟨c1, c2⟩ := c
    cases pl with
    | false =>
      simp only [darkenedCells, List.not_mem_nil, false_iff]
      intro h
      exact absurd h.1 (by decide)
    | true =>
      simp only [darkenedCells, List.mem_flatMap, List.mem_map, List.mem_filter,
        mem_intRange, Prod.mk.injEq]
      constructor
      · rintro ⟨ty, ⟨hy1, hy2⟩, tx, ⟨⟨hx1, hx2⟩, hfog⟩, rfl, rfl⟩
        rw [fogDarkens_iff] at hfog
        exact ⟨trivial, hx1, hx2, hy1, hy2, hfog⟩
      · rintro ⟨-, hx1, hx2, hy1, hy2, hdist⟩
        refine ⟨c2, ⟨hy1, hy2⟩, c1, ⟨⟨hx1, hx2⟩, ?_⟩, rfl, rfl⟩
        rw [fogDarkens_iff]
        exact hdist
  · intro pl minTX maxTX minTY maxTY
    cases pl with
    | false => rfl
    | true => rfl

/-! ### HP bar (`drawAgent`, lines 599–608) -/

/-- The fill width of the agent HP bar: `barW * (hp / 100)` with
`barW = 24` and `hp = getTag(a.tags, 'hp')`.  The code applies no
clamping. -/
def hpBarFillWidth (tags : String) : Rat := 24 * (getTag tags ("hp") / 100)

/-- C7 counterexample: the claim says hp is clamped to [0,100] so any hp
above 100 fills exactly the bar width 24; but `drawAgent` computes
`barW * (hp / 100)` unclamped, so hp = 150 gives fill width 36 ≠ 24. -/
theorem c7_no_clamp_counterexample :
    getTag ("hp:150") ("hp") = 150 ∧
    (100 : Rat) < getTag ("hp:150") ("hp") ∧
    ¬ (hpBarFillWidth ("hp:150") = 24) := by
  refine ⟨by decide, by decide, ?_⟩
  rw [hpBarFillWidth, show getTag ("hp:150") ("hp") = 150 from by decide]
  norm_num

/-- C7 (amended): the HP bar fill width is the linear, UNclamped function
`24 * hp / 100` of the decoded `hp` attribute; for hp within [0,100] it
agrees with the claimed clamped formula and stays within [0, 24], but
hp = 150 yields width 36 (wider than the bar) and hp = −50 yields the
negative width −12. -/
theorem c7_hp_bar_linear :
    (∀ tags : String, 0 ≤ getTag tags ("hp") → getTag tags ("hp") ≤ 100 →
      hpBarFillWidth tags = 24 * (min (max (getTag tags ("hp")) 0) 100) / 100 ∧
      0 ≤ hpBarFillWidth tags ∧ hpBarFillWidth tags ≤ 24) ∧
    hpBarFillWidth ("hp:150") = 36 ∧
    hpBarFillWidth ("hp:-50") = -12 := by
  refine ⟨?_, ?_, ?_⟩
  · intro tags h0 h100
    rw [hpBarFillWidth, max_eq_left h0, min_eq_left h100]
    refine ⟨by ring, ?_, ?_⟩
    · exact mul_nonneg (by norm_num) (div_nonneg h0 (by norm_num))
    · have h1 : getTag tags ("hp") / 100 ≤ 1 := by
        rw [div_le_one (by norm_num : (0 : Rat) < 100)]
        exact h100
      linarith
  · rw [hpBarFillWidth, show getTag ("hp:150") ("hp") = 150 from by decide]
    norm_num
  · rw [hpBarFillWidth, show getTag ("hp:-50") ("hp") = -50 from by decide]
    norm_num

/-- C7 witness: the in-range clause of `c7_hp_bar_linear` instantiated at
hp = 42. -/
theorem c7_hp_bar_linear_witness :
    hpBarFillWidth ("hp:42")
        = 24 * (min (max (getTag ("hp:42") ("hp")) 0) 100) / 100 ∧
      0 ≤ hpBarFillWidth ("hp:42") ∧ hpBarFillWidth ("hp:42") ≤ 24 :=
  c7_hp_bar_linear.1 ("hp:42") (by decide) (by decide)

/-! ### Ground-item stacks (render lines 278–304, `drawItem` lines 348–356) -/

/-- `stackOffset = 2` pixels per stack level in `drawItem`. -/
def STACK_OFFSET : Int := 2

/-- The items collected into the stack group of cell `(x, y)`: ground
items (no carrier) at that cell, in arrival (iteration) order — this is
the per-key list the `itemStacks` map accumulates by `push`. -/
def cellStack (items : List Item) (x y : Int) : List Item :=
  items.filter (fun it => it.carrier.isNone && it.x == x && it.y == y)

/-- The item-id comparison relation of `stack.sort((a, b) => a.id - b.id)`. -/
def itemIdLE (a b : Item) : Prop := a.id ≤ b.id

instance : DecidableRel itemIdLE := fun a b => Int.decLe a.id b.id

/-- The per-stack sort: JS `Array.prototype.sort` is stable, and on the
total preorder `itemIdLE` every stable sort computes the same list as
insertion sort. -/
def sortStack (l : List Item) : List Item := List.insertionSort itemIdLE l

/-- Pixel offset of the item drawn at stack index `i`:
`offsetX = i * stackOffset`, `offsetY = -i * stackOffset`.  Canvas y grows
downward, so the negative y component is upward; the POSITIVE x component
is rightward — each level shifts up-and-right on screen (the source's own
comment says "up-left", contradicting its arithmetic). -/
def stackPixelOffset (i : Nat) : Int × Int :=
  (STACK_OFFSET * (i : Int), -(STACK_OFFSET * (i : Int)))

/-- The draw pass over one stack: `drawItem(stack[i], i, …)` for each
index `i` of the sorted stack, paired with the pixel offset it draws at. -/
def drawStack (l : List Item) : List (Item × Int × Int) :=
  (sortStack l).enum.map (fun p => (p.2, stackPixelOffset p.1))

theorem map_fst_enumMap {α β : Type} (l : List α) (f : Nat → β) :
    ((l.enum.map (fun p => (p.2, f p.1))).map (fun q => q.1)) = l := by
  rw [List.map_map]
  exact List.enum_map_snd l

theorem map_snd_enumMap {α β : Type} (l : List α) (f : Nat → β) :
    ((l.enum.map (fun p => (p.2, f p.1))).map (fun q => q.2))
      = (List.range l.length).map f := by
  rw [List.map_map,
    show ((fun q : α × β => q.2) ∘ (fun p : Nat × α => (p.2, f p.1)))
      = f ∘ Prod.fst from rfl,
    ← List.map_map, List.enum_map_fst]

theorem sortStack_sorted (l : List Item) : List.Sorted itemIdLE (sortStack l) := by
  haveI : IsTotal Item itemIdLE := ⟨fun a b => le_total a.id b.id⟩
  haveI : IsTrans Item itemIdLE := ⟨fun _ _ _ h1 h2 => le_trans h1 h2⟩
  exact List.sorted_insertionSort itemIdLE l

theorem sortStack_perm (l : List Item) : (sortStack l).Perm l :=
  List.perm_insertionSort itemIdLE l

/-- With pairwise-distinct ids, the sorted stack is the same for every
arrival order. -/
theorem sortStack_eq_of_perm {l₁ l₂ : List Item} (hp : l₁.Perm l₂)
    (hn : (l₁.map Item.id).Nodup) : sortStack l₁ = sortStack l₂ := by
  have hperm : (sortStack l₁).Perm (sortStack l₂) :=
    (sortStack_perm l₁).trans (hp.trans (sortStack_perm l₂).symm)
  have hn1 : ((sortStack l₁).map Item.id).Nodup :=
    (((sortStack_perm l₁).map Item.id).nodup_iff).mpr hn
  have hn2 : ((sortStack l₂).map Item.id).Nodup :=
    ((hperm.map Item.id).nodup_iff).mp hn1
  have strict : ∀ m : List Item, List.Sorted itemIdLE m → ((m.map Item.id).Nodup) →
      List.Sorted (fun a b : Item => a.id < b.id) m := by
    intro m hs hnd
    have hpne : m.Pairwise (fun a b : Item => a.id ≠ b.id) := by
      rw [List.Nodup, List.pairwise_map] at hnd
      exact hnd
    exact (hs.and hpne).imp (fun h => lt_of_le_of_ne h.1 h.2)
  haveI : IsAntisymm Item (fun a b : Item => a.id < b.id) :=
    ⟨fun a b h1 h2 => (lt_asymm h1 h2).elim⟩
  exact List.eq_of_perm_of_sorted hperm (strict _ (sortStack_sorted l₁) hn1)
    (strict _ (sortStack_sorted l₂) hn2)

/-- A ground item with id 3 at cell (0,0). -/
def item3 : Item := { id := 3, x := 0, y := 0, carrier := none, tags := "" }

/-- A ground item with id 5 at cell (0,0). -/
def item5 : Item := { id := 5, x := 0, y := 0, carrier := none, tags := "" }

/-- C3 counterexample: the claim says each later item is offset
"up-and-left", but `drawItem` computes `offsetX = stackIndex * 2` and ADDS
it to the screen x coordinate; under the renderer's positive-scale
transform positive x is rightward, so with ids 3 and 5 on one cell item 5
draws at pixel offset (+2, −2): up-and-RIGHT (positive per-level x step),
not up-and-left (which would need a negative x offset). -/
theorem c3_up_right_counterexample :
    (drawStack [item3, item5]).map (fun q => q.2) = [(0, 0), (2, -2)] ∧
    (0 : Int) < STACK_OFFSET := by
  constructor
  · decide
  · decide

/-- C3 (amended): the renderer sorts each cell's ground-item group
ascending by identifier; the drawn sequence pairs the i-th smallest id
with pixel offset `(2i, −2i)` — up-and-RIGHT per level on canvas (y grows
downward, x grows rightward) — so the lowest id draws at offset 0; the
result is identical for every arrival order of the same items when ids
are pairwise distinct.  With ids 3 and 5 on one cell, item 3 draws at
stack level 0 (offset (0,0)) and item 5 at level 1 (offset (2,−2)), for
either insertion order. -/
theorem c3_item_stacking :
    (∀ (items1 items2 : List Item) (x y : Int), items1.Perm items2 →
      ((cellStack items1 x y).map Item.id).Nodup →
      drawStack (cellStack items1 x y) = drawStack (cellStack items2 x y)) ∧
    (∀ l : List Item,
      List.Sorted itemIdLE (sortStack l) ∧ (sortStack l).Perm l) ∧
    (∀ l : List Item,
      (drawStack l).map (fun q => q.1) = sortStack l ∧
      (drawStack l).map (fun q => q.2)
        = (List.range (sortStack l).length).map stackPixelOffset) ∧
    (∀ (l : List Item) (it : Item) (rest : List Item), sortStack l = it :: rest →
      ∀ j ∈ l, it.id ≤ j.id) ∧
    drawStack [item5, item3] = [(item3, (0, 0)), (item5, (2, -2))] ∧
    drawStack [item3, item5] = [(item3, (0, 0)), (item5, (2, -2))] := by
  refine ⟨?_, ?_, ?_, ?_, by decide, by decide⟩
  · intro items1 items2 x y hperm hnodup
    have hp : (cellStack items1 x y).Perm (cellStack items2 x y) := hperm.filter _
    rw [drawStack, drawStack, sortStack_eq_of_perm hp hnodup]
  · intro l
    exact ⟨sortStack_sorted l, sortStack_perm l⟩
  · intro l
    exact ⟨map_fst_enumMap _ _, map_snd_enumMap _ _⟩
  · intro l it rest h j hj
    have hmem : j ∈ it :: rest := by
      rw [← h]
      exact ((sortStack_perm l).mem_iff).mpr hj
    rcases List.mem_cons.mp hmem with hje | hjr
    · rw [hje]
    · have hs := sortStack_sorted l
      rw [h] at hs
      exact List.rel_of_sorted_cons hs j hjr

/-- C3 witness: the arrival-order-invariance clause of `c3_item_stacking`
instantiated at the two insertion orders of items 3 and 5 on cell (0,0). -/
theorem c3_item_stacking_witness :
    drawStack (cellStack [item5, item3] 0 0)
      = drawStack (cellStack [item3, item5] 0 0) :=
  c3_item_stacking.1 [item5, item3] [item3, item5] 0 0 (by decide) (by decide)

/-! ### Action controller (keydown handler, lines 991–1094) -/

/-- An outbound reducer intent. -/
inductive Intent where
  | move (direction : String)
  | use (itemId : Int) (target : String)
  | take (itemId : Int)
  | drop (itemId : Int)
  | say (text : String)
  deriving DecidableEq, Repr

/-- The client state the keydown handler reads and writes.  `conn` is
modelled as present (the handler bails out identically when it is null or
when not playing). -/
structure ClientState where
  chatOpen : Bool
  chatText : String
  playing : Bool
  useMode : Bool
  selectedSlot : Nat
  showItemLabels : Bool
  myIdentity : Nat
  agent : Option Agent
  nearbyItems : List Item
  deriving DecidableEq, Repr

/-- `getInventory()`: carried items of the controlled agent, in view
iteration order. -/
def getInventory (s : ClientState) : List Item :=
  s.nearbyItems.filter (fun it => it.carrier == some s.myIdentity)

/-- The item id sent by a use intent: `inv[selectedSlot - 1].id` when a
non-empty inventory slot is selected, else the sentinel `0n`. -/
def slotItemId (s : ClientState) : Int :=
  if s.selectedSlot > 0 then
    match (getInventory s).get? (s.selectedSlot - 1) with
    | some it => it.id
    | none => 0
  else 0

/-- The movement-direction chain of the handler (W/A/S/D and arrows). -/
def moveDirOf (key : String) : Option String :=
  if key = "w" || key = "W" || key = "ArrowUp" then some ("north")
  else if key = "s" || key = "S" || key = "ArrowDown" then some ("south")
  else if key = "a" || key = "A" || key = "ArrowLeft" then some ("west")
  else if key = "d" || key = "D" || key = "ArrowRight" then some ("east")
  else none

/-- The use-target chain of the `useMode` branch (`''` becomes `none`). -/
def useTargetOf (key : String) : Option String :=
  if key = "w" || key = "W" || key = "ArrowUp" then some ("north")
  else if key = "s" || key = "S" || key = "ArrowDown" then some ("south")
  else if key = "a" || key = "A" || key = "ArrowLeft" then some ("west")
  else if key = "d" || key = "D" || key = "ArrowRight" then some ("east")
  else if key = "f" || key = "F" then some ("here")
  else if key = " " then some ("self")
  else none

/-- JS `<` on strings: lexicographic UTF-16 code-unit comparison. -/
def jsStrLt : List Char → List Char → Bool
  | [], [] => false
  | [], _ :: _ => true
  | _ :: _, [] => false
  | a :: as, b :: bs => if a < b then true else if b < a then false else jsStrLt as bs

/-- JS `a <= b` on strings is `!(b < a)`. -/
def jsStrLe (a b : List Char) : Bool := ! jsStrLt b a

/-- JS `parseInt` restricted to the keys that pass the `'1' <= key <= '8'`
guard (which forces a leading decimal digit): value of the leading digit
run. -/
def jsParseIntDigits (key : String) : Nat :=
  digitsVal (key.toList.takeWhile Char.isDigit)

/-- `takeable.sort((a, b) => Number(b.id - a.id))`: newest (largest id)
first.  Stable JS sort on a total preorder = insertion sort. -/
def sortNewestFirst (l : List Item) : List Item :=
  List.insertionSort (fun a b : Item => b.id ≤ a.id) l

/-- The `keydown` handler: consumes one key event (`key`, `rep` =
`e.repeat`) and returns the new client state plus the intents sent over
the connection, in emission order. -/
def keydown (s : ClientState) (key : String) (rep : Bool) :
    ClientState × List Intent :=
  if s.chatOpen then
    if key = "Enter" then
      let msgs := if s.chatText.trim ≠ "" then [Intent.say s.chatText.trim] else []
      ({ s with chatText := "", chatOpen := false }, msgs)
    else if key = "Escape" then
      ({ s with chatText := "", chatOpen := false }, [])
    else (s, [])
  else if ! s.playing then (s, [])
  else if rep then (s, [])
  else if s.useMode then
    match useTargetOf key with
    | some t => ({ s with useMode := false }, [Intent.use (slotItemId s) t])
    | none =>
      if key = "Escape" then ({ s with useMode := false }, []) else (s, [])
  else
    match moveDirOf key with
    | some d => (s, [Intent.move d])
    | none =>
      if key = "e" || key = "E" then
        match s.agent with
        | none => (s, [])
        | some a =>
          let takeable := s.nearbyItems.filter (fun it =>
            it.carrier.isNone && it.x == a.x && it.y == a.y &&
            ! hasTag it.tags ("blocking") && ! hasTag it.tags ("rooted"))
          match sortNewestFirst takeable with
          | t :: _ => (s, [Intent.take t.id])
          | [] => (s, [])
      else if key = "q" || key = "Q" then
        if s.selectedSlot > 0 then
          match (getInventory s).get? (s.selectedSlot - 1) with
          | some it => (s, [Intent.drop it.id])
          | none => (s, [])
        else (s, [])
      else if key = "f" || key = "F" then ({ s with useMode := true }, [])
      else if key = "0" || key = "\x60" then ({ s with selectedSlot := 0 }, [])
      else if jsStrLe ("1").toList key.toList && jsStrLe key.toList ("8").toList then
        ({ s with selectedSlot := jsParseIntDigits key }, [])
      else if key = "l" || key = "L" then
        ({ s with showItemLabels := ! s.showItemLabels }, [])
      else if key = "Enter" then ({ s with chatOpen := true }, [])
      else (s, [])

/-- Every direction key resolves, in the `useMode` branch, to the use
target named after the same direction. -/
theorem useTargetOf_of_moveDirOf {key d : String} (h : moveDirOf key = some d) :
    useTargetOf key = some d := by
  unfold moveDirOf at h
  unfold useTargetOf
  split_ifs at h with h1 h2 h3 h4
  · rw [if_pos h1]
    exact h
  · rw [if_neg h1, if_pos h2]
    exact h
  · rw [if_neg h1, if_neg h2, if_pos h3]
    exact h
  · rw [if_neg h1, if_neg h2, if_neg h3, if_pos h4]
    exact h

/-- A concrete pending-use state (bare hands selected). -/
def s0 : ClientState :=
  { chatOpen := false, chatText := "", playing := true, useMode := true,
    selectedSlot := 0, showItemLabels := false, myIdentity := 0,
    agent := none, nearbyItems := [] }

/-- C5 counterexample: with pendingUse (useMode) set, pressing the north
direction key emits a use intent, not a movement intent — movement IS
gated by pendingUse. -/
theorem c5_usemode_gates_movement_counterexample :
    (keydown s0 ("w") false).2 = [Intent.use 0 ("north")] ∧
    Intent.move ("north") ∉ (keydown s0 ("w") false).2 := by
  constructor
  · decide
  · decide

/-- C5 (amended): while playing, not composing chat and with pendingUse
clear, every directional key press emits exactly the movement intent in
that direction (and changes no state); while pendingUse is set, the same
key instead resolves the pending use — it emits a single use intent toward
that direction and no movement intent. -/
theorem c5_movement_keys :
    (∀ (s : ClientState) (key d : String), s.chatOpen = false → s.playing = true →
      s.useMode = false → moveDirOf key = some d →
      keydown s key false = (s, [Intent.move d])) ∧
    (∀ (s : ClientState) (key d : String), s.chatOpen = false → s.playing = true →
      s.useMode = true → moveDirOf key = some d →
      (keydown s key false).2 = [Intent.use (slotItemId s) d] ∧
      ∀ dir : String, Intent.move dir ∉ (keydown s key false).2) := by
  constructor
  · intro s key d hchat hplay huse hdir
    simp [keydown, hchat, hplay, huse, hdir]
  · intro s key d hchat hplay huse hdir
    have ht := useTargetOf_of_moveDirOf hdir
    constructor
    · simp [keydown, hchat, hplay, huse, ht]
    · intro dir
      simp [keydown, hchat, hplay, huse, ht]

/-- C5 witness: a concrete playing state with pendingUse clear. -/
def s2 : ClientState :=
  { chatOpen := false, chatText := "", playing := true, useMode := false,
    selectedSlot := 0, showItemLabels := false, myIdentity := 0,
    agent := none, nearbyItems := [] }

/-- C5 witness: the movement clause of `c5_movement_keys` instantiated at
the concrete state `s2` and the north key. -/
theorem c5_movement_keys_witness :
    keydown s2 ("w") false = (s2, [Intent.move ("north")]) :=
  c5_movement_keys.1 s2 ("w") ("north") rfl rfl rfl (by decide)

/-- C6: while pendingUse is set (playing, not chatting): escape clears
pendingUse and emits nothing; a resolving key emits exactly one use intent
carrying the selected slot's item id (or the sentinel 0) and the resolved
target, then clears pendingUse.  Pressing "use" (f) and then "north" (w)
emits nothing on the first press and exactly one use intent targeting
north on the second. -/
theorem c6_pending_use_resolution :
    (∀ s : ClientState, s.chatOpen = false → s.playing = true → s.useMode = true →
      keydown s ("Escape") false = ({ s with useMode := false }, [])) ∧
    (∀ (s : ClientState) (key t : String), s.chatOpen = false → s.playing = true →
      s.useMode = true → useTargetOf key = some t →
      keydown s key false
        = ({ s with useMode := false }, [Intent.use (slotItemId s) t])) ∧
    (∀ s : ClientState, s.chatOpen = false → s.playing = true → s.useMode = false →
      (keydown s ("f") false).2 = [] ∧
      (keydown s ("f") false).1.useMode = true ∧
      (keydown (keydown s ("f") false).1 ("w") false).2
        = [Intent.use (slotItemId (keydown s ("f") false).1) ("north")]) := by
  refine ⟨?_, ?_, ?_⟩
  · intro s hchat hplay huse
    simp [keydown, useTargetOf, hchat, hplay, huse]
  · intro s key t hchat hplay huse ht
    simp [keydown, hchat, hplay, huse, ht]
  · intro s hchat hplay huse
    have h1 : keydown s ("f") false = ({ s with useMode := true }, []) := by
      simp [keydown, moveDirOf, hchat, hplay, huse]
    refine ⟨by rw [h1], by rw [h1], ?_⟩
    rw [h1]
    simp [keydown, useTargetOf, hchat, hplay]

/-- A carried item in inventory slot 1. -/
def itemInv : Item := { id := 7, x := 1, y := 2, carrier := some 0, tags := "name:torch" }

/-- A concrete pending-use state with inventory slot 1 selected and
holding `itemInv`. -/
def s1 : ClientState :=
  { chatOpen := false, chatText := "", playing := true, useMode := true,
    selectedSlot := 1, showItemLabels := false, myIdentity := 0,
    agent := none, nearbyItems := [itemInv] }

/-- C6 witness: the resolving clause of `c6_pending_use_resolution`
instantiated at the concrete state `s1` and the north key (here the
selected slot holds item 7, so `slotItemId s1 = 7`). -/
theorem c6_pending_use_resolution_witness :
    keydown s1 ("w") false
      = ({ s1 with useMode := false }, [Intent.use (slotItemId s1) ("north")]) :=
  c6_pending_use_resolution.2.1 s1 ("w") ("north") rfl rfl rfl (by decide)

/-! ### Leaderboard ranker (`drawLeaderboard`, lines 906–946) -/

/-- A `leaderboard` row. -/
structure LBEntry where
  name : String
  bestStreak : Int
  totalKills : Int
  totalDeaths : Int
  deriving DecidableEq, Repr

/-- The presence map built by `drawLeaderboard`: names of visible agents
(my agent, then nearby agents) with positive `born_at`, mapped to that
`born_at` (JS `Map.set` semantics on duplicates). -/
def aliveBornAt (myAgent : Option Agent) (nearby : List Agent) :
    List (String × Rat) :=
  let m0 : List (String × Rat) :=
    match myAgent with
    | some a =>
      if 0 < getTag a.tags ("born_at") then
        mapSet [] a.name (getTag a.tags ("born_at"))
      else []
    | none => []
  nearby.foldl (fun m a =>
    if 0 < getTag a.tags ("born_at") then
      mapSet m a.name (getTag a.tags ("born_at"))
    else m) m0

/-- `getStreak`: `now − born_at` for a present (truthy `born`) entry,
otherwise the persisted best streak. -/
def getStreak (alive : List (String × Rat)) (nowMs : Rat) (e : LBEntry) : Rat :=
  match alive.find? (fun p => p.1 == e.name) with
  | some p => if p.2 == 0 then (e.bestStreak : Rat) else nowMs - p.2
  | none => (e.bestStreak : Rat)

/-- The comparator `(a, b) => getStreak(b) - getStreak(a)` orders `a`
before `b` exactly when `getStreak b ≤ getStreak a` (descending). -/
def lbRel (alive : List (String × Rat)) (nowMs : Rat) (a b : LBEntry) : Prop :=
  getStreak alive nowMs b ≤ getStreak alive nowMs a

instance (alive : List (String × Rat)) (nowMs : Rat) :
    DecidableRel (lbRel alive nowMs) :=
  fun a b => inferInstanceAs (Decidable (_ ≤ _))

/-- `entries.sort(...)` of `drawLeaderboard`: JS sort is stable, and on
the total preorder `lbRel` every stable sort computes the same list as
insertion sort. -/
def rankLeaderboard (myAgent : Option Agent) (nearby : List Agent)
    (entries : List LBEntry) (nowMs : Rat) : List LBEntry :=
  List.insertionSort (lbRel (aliveBornAt myAgent nearby) nowMs) entries

/-- Agent A, alive since t = 880000. -/
def agentA : Agent := { name := "A", x := 0, y := 0, tags := "born_at:880000" }

/-- Leaderboard entry for the present agent A. -/
def eA : LBEntry := { name := "A", bestStreak := 0, totalKills := 0, totalDeaths := 0 }

/-- Absent entry B with best streak 90000. -/
def eB : LBEntry := { name := "B", bestStreak := 90000, totalKills := 0, totalDeaths := 0 }

/-- Absent entry B with best streak 200000. -/
def eB2 : LBEntry :=
  { name := "B", bestStreak := 200000, totalKills := 0, totalDeaths := 0 }

theorem aliveBornAt_example :
    aliveBornAt (some agentA) [] = [("A", (880000 : Rat))] := by decide

theorem getStreak_eA :
    getStreak (aliveBornAt (some agentA) []) 1000000 eA = 120000 := by
  rw [aliveBornAt_example, getStreak,
    show ([("A", (880000 : Rat))].find? (fun p => p.1 == eA.name))
      = some ("A", (880000 : Rat)) from by decide]
  norm_num

theorem getStreak_eB :
    getStreak (aliveBornAt (some agentA) []) 1000000 eB = 90000 := by
  rw [aliveBornAt_example, getStreak,
    show ([("A", (880000 : Rat))].find? (fun p => p.1 == eB.name)) = none
      from by decide]
  norm_num [eB]

theorem getStreak_eB2 :
    getStreak (aliveBornAt (some agentA) []) 1000000 eB2 = 200000 := by
  rw [aliveBornAt_example, getStreak,
    show ([("A", (880000 : Rat))].find? (fun p => p.1 == eB2.name)) = none
      from by decide]
  norm_num [eB2]

/-- C9: the leaderboard ranker keys a present entry (visible agent with
positive born_at) by `now − born_at` and an absent entry by its persisted
best streak, sorts descending by this key with a stable sort (ties keep
their original relative order), and the result is a permutation of the
entries.  Concretely, present A (born now−120000) ranks above absent B
with best streak 90000, and below absent B with best streak 200000. -/
theorem c9_leaderboard_ranking :
    (∀ (my : Option Agent) (nb : List Agent) (entries : List LBEntry) (now : Rat),
      (rankLeaderboard my nb entries now).Perm entries ∧
      List.Sorted (lbRel (aliveBornAt my nb) now) (rankLeaderboard my nb entries now)) ∧
    (∀ (my : Option Agent) (nb : List Agent) (entries : List LBEntry) (now : Rat)
      (a b : LBEntry), [a, b].Sublist entries →
      getStreak (aliveBornAt my nb) now a = getStreak (aliveBornAt my nb) now b →
      [a, b].Sublist (rankLeaderboard my nb entries now)) ∧
    getStreak (aliveBornAt (some agentA) []) 1000000 eA = 120000 ∧
    getStreak (aliveBornAt (some agentA) []) 1000000 eB = 90000 ∧
    rankLeaderboard (some agentA) [] [eA, eB] 1000000 = [eA, eB] ∧
    rankLeaderboard (some agentA) [] [eA, eB2] 1000000 = [eB2, eA] := by
  refine ⟨?_, ?_, getStreak_eA, getStreak_eB, ?_, ?_⟩
  · intro my nb entries now
    haveI : IsTotal LBEntry (lbRel (aliveBornAt my nb) now) :=
      ⟨fun _ _ => le_total _ _⟩
    haveI : IsTrans LBEntry (lbRel (aliveBornAt my nb) now) :=
      ⟨fun _ _ _ h1 h2 => le_trans h2 h1⟩
    exact ⟨List.perm_insertionSort _ entries, List.sorted_insertionSort _ entries⟩
  · intro my nb entries now a b hsub heq
    exact List.pair_sublist_insertionSort (le_of_eq heq.symm) hsub
  · have hrel : lbRel (aliveBornAt (some agentA) []) 1000000 eA eB := by
      rw [lbRel, getStreak_eA, getStreak_eB]
      norm_num
    rw [rankLeaderboard]
    simp only [List.insertionSort, List.orderedInsert]
    rw [if_pos hrel]
  · have hrel : ¬ lbRel (aliveBornAt (some agentA) []) 1000000 eA eB2 := by
      rw [lbRel, getStreak_eA, getStreak_eB2]
      norm_num
    rw [rankLeaderboard]
    simp only [List.insertionSort, List.orderedInsert]
    rw [if_neg hrel]

/-- Absent entry B whose best streak ties A's live streak of 120000. -/
def eBtie : LBEntry :=
  { name := "B", bestStreak := 120000, totalKills := 0, totalDeaths := 0 }

theorem getStreak_eBtie :
    getStreak (aliveBornAt (some agentA) []) 1000000 eBtie = 120000 := by
  rw [aliveBornAt_example, getStreak,
    show ([("A", (880000 : Rat))].find? (fun p => p.1 == eBtie.name)) = none
      from by decide]
  norm_num [eBtie]

/-- C9 witness: the stable-tie clause of `c9_leaderboard_ranking`
instantiated at the tied entries A (live streak 120000) and B (best
streak 120000): they keep their original relative order. -/
theorem c9_leaderboard_ranking_witness :
    [eA, eBtie].Sublist (rankLeaderboard (some agentA) [] [eA, eBtie] 1000000) :=
  c9_leaderboard_ranking.2.1 (some agentA) [] [eA, eBtie] 1000000 eA eBtie
    (List.Sublist.refl _) (getStreak_eA.trans getStreak_eBtie.symm)

end ClawViewer
